import Mathlib

/-!
Verification of the Black-Scholes Greeks kernel
(`src/wasm/options_calc.c` and `src/wasm/options_calc_indv.c`).

The C `double` arithmetic is embedded over the real numbers: `exp`, `log`,
`sqrt` and `M_PI` become `Real.exp`, `Real.log`, `Real.sqrt` and `Real.pi`,
`fmax` becomes `max`, and decimal literals denote the exact rationals they
spell.  All definitions follow the C source line by line.
-/

namespace OptionsCalc

noncomputable section

/-- Constant `a1` from `options_calc.c`. -/
def a1 : ℝ := 0.254829592

/-- Constant `a2` from `options_calc.c`. -/
def a2 : ℝ := -0.284496736

/-- Constant `a3` from `options_calc.c`. -/
def a3 : ℝ := 1.421413741

/-- Constant `a4` from `options_calc.c`. -/
def a4 : ℝ := -1.453152027

/-- Constant `a5` from `options_calc.c`. -/
def a5 : ℝ := 1.061405429

/-- Constant `p` from `options_calc.c`. -/
def p : ℝ := 0.3275911

/-- The Horner polynomial `((((a5*t + a4)*t + a3)*t + a2)*t + a1)*t`
appearing in `cnd`. -/
def poly (t : ℝ) : ℝ := ((((a5 * t + a4) * t + a3) * t + a2) * t + a1) * t

/-- The quantity `y` computed inside `cnd` for the (nonnegative) folded
argument `z`: `y = 1 - poly(1/(1+p*z)) * exp(-z*z)`. -/
def erfAS (z : ℝ) : ℝ := 1 - poly (1 / (1 + p * z)) * Real.exp (-(z * z))

/-- Function `cnd` from `options_calc.c`: the branch on `x < 0` sets `sign` and
replaces `x` by `-x`, i.e. the tail works on `|x|`; the result is
`0.5 * (1 + sign * y)`. -/
def cnd (x : ℝ) : ℝ :=
  0.5 * (1 + (if x < 0 then (-1 : ℝ) else 1) * erfAS |x|)

/-- Function `npdf` from `options_calc.c`: `exp(-0.5*x*x) / sqrt(2*M_PI)`. -/
def npdf (x : ℝ) : ℝ := Real.exp (-(0.5 * x * x)) / Real.sqrt (2 * Real.pi)

/-- Function `d1` from `options_calc.c`. -/
def d1 (S K T r sigma : ℝ) : ℝ :=
  (Real.log (S / K) + (r + 0.5 * sigma * sigma) * T) / (sigma * Real.sqrt T)

/-- Function `d2` from `options_calc.c`. -/
def d2 (S K T r sigma : ℝ) : ℝ :=
  d1 S K T r sigma - sigma * Real.sqrt T

/-- The six slots of the `results` array returned by `calculateGreeks`,
in the source's documented order. -/
structure GreeksResult where
  price : ℝ
  delta : ℝ
  gamma : ℝ
  theta : ℝ
  vega : ℝ
  rho : ℝ

/-- Function `calculateGreeks` from `options_calc.c`.  The `isCall` int is modelled
as a `Bool`.  The `T <= 0.0001` branch fills the array from `S` and `K`
alone; otherwise the Black-Scholes formulas are used and theta is divided
by 365 at the end. -/
def calculateGreeks (isCall : Bool) (S K T r sigma : ℝ) : GreeksResult :=
  if T ≤ 0.0001 then
    if isCall then
      { price := max 0 (S - K)
        delta := if S > K then 1 else 0
        gamma := 0, theta := 0, vega := 0, rho := 0 }
    else
      { price := max 0 (K - S)
        delta := if S < K then -1 else 0
        gamma := 0, theta := 0, vega := 0, rho := 0 }
  else
    let d1v := d1 S K T r sigma
    let d2v := d2 S K T r sigma
    let nd1 := npdf d1v
    if isCall then
      { price := S * cnd d1v - K * Real.exp (-(r * T)) * cnd d2v
        delta := cnd d1v
        gamma := nd1 / (S * sigma * Real.sqrt T)
        theta := (-(S * sigma * nd1) / (2 * Real.sqrt T)
                  - r * K * Real.exp (-(r * T)) * cnd d2v) / 365
        vega := 0.01 * S * Real.sqrt T * nd1
        rho := 0.01 * K * T * Real.exp (-(r * T)) * cnd d2v }
    else
      { price := K * Real.exp (-(r * T)) * cnd (-d2v) - S * cnd (-d1v)
        delta := cnd d1v - 1
        gamma := nd1 / (S * sigma * Real.sqrt T)
        theta := (-(S * sigma * nd1) / (2 * Real.sqrt T)
                  + r * K * Real.exp (-(r * T)) * cnd (-d2v)) / 365
        vega := 0.01 * S * Real.sqrt T * nd1
        rho := -0.01 * K * T * Real.exp (-(r * T)) * cnd (-d2v) }

/-- Function `calculateOptionPrice` from `options_calc_indv.c`. -/
def calculateOptionPrice (isCall : Bool) (S K T r sigma : ℝ) : ℝ :=
  if T ≤ 0.0001 then
    if isCall then max 0 (S - K) else max 0 (K - S)
  else
    let d1v := d1 S K T r sigma
    let d2v := d2 S K T r sigma
    if isCall then
      S * cnd d1v - K * Real.exp (-(r * T)) * cnd d2v
    else
      K * Real.exp (-(r * T)) * cnd (-d2v) - S * cnd (-d1v)

/-- Function `calculateDelta` from `options_calc_indv.c`. -/
def calculateDelta (isCall : Bool) (S K T r sigma : ℝ) : ℝ :=
  if T ≤ 0.0001 then
    if isCall then (if S > K then 1 else 0) else (if S < K then -1 else 0)
  else
    let d1v := d1 S K T r sigma
    if isCall then cnd d1v else cnd d1v - 1

/-- Function `calculateGamma` from `options_calc_indv.c` (no `isCall` parameter). -/
def calculateGamma (S K T r sigma : ℝ) : ℝ :=
  if T ≤ 0.0001 then 0
  else
    let d1v := d1 S K T r sigma
    npdf d1v / (S * sigma * Real.sqrt T)

/-- Function `calculateTheta` from `options_calc_indv.c`.  Note: unlike the batch
`calculateGreeks`, this function performs no division by 365. -/
def calculateTheta (isCall : Bool) (S K T r sigma : ℝ) : ℝ :=
  if T ≤ 0.0001 then 0
  else
    let d1v := d1 S K T r sigma
    let d2v := d2 S K T r sigma
    let common := -(S * sigma * npdf d1v) / (2 * Real.sqrt T)
    if isCall then
      common - r * K * Real.exp (-(r * T)) * cnd d2v
    else
      common + r * K * Real.exp (-(r * T)) * cnd (-d2v)

/-- Function `calculateVega` from `options_calc_indv.c` (no `isCall` parameter). -/
def calculateVega (S K T r sigma : ℝ) : ℝ :=
  if T ≤ 0.0001 then 0
  else
    let d1v := d1 S K T r sigma
    0.01 * S * Real.sqrt T * npdf d1v

/-- Function `calculateRho` from `options_calc_indv.c`. -/
def calculateRho (isCall : Bool) (S K T r sigma : ℝ) : ℝ :=
  if T ≤ 0.0001 then 0
  else
    let d2v := d2 S K T r sigma
    if isCall then
      0.01 * K * T * Real.exp (-(r * T)) * cnd d2v
    else
      -0.01 * K * T * Real.exp (-(r * T)) * cnd (-d2v)

/-- Modelled from the spec: the cumulative-normal approximation as §4.1
states it, with `z = |x| / sqrt 2` fed to the Abramowitz-Stegun
error-function fit and result `0.5 * (1 + sign * erf_approx(z))`.  This
is the algorithm the spec claims `cnd` implements; it differs from `cnd`
above, which feeds `|x|` itself to the fit. -/
def cndSpecAlg (x : ℝ) : ℝ :=
  0.5 * (1 + (if x < 0 then (-1 : ℝ) else 1) * erfAS (|x| / Real.sqrt 2))

end

/-! ### Helper lemmas about `cnd` -/

/-- The quartic cofactor of `poly` is nonnegative everywhere (exact
sum-of-squares decomposition of the Abramowitz-Stegun coefficients). -/
lemma quartic_nonneg (t : ℝ) :
    0 ≤ a5 * t ^ 4 + a4 * t ^ 3 + a3 * t ^ 2 + a2 * t + a1 := by
  unfold a1 a2 a3 a4 a5
  nlinarith [sq_nonneg (t * t - (1453152027 / 2122810858 : ℝ) * t),
    sq_nonneg (t - (603932760246359488 / 3923134232636190827 : ℝ))]

/-- The quartic cofactor of `poly` is at most `2` on `[0, 1]`. -/
lemma quartic_le_two (t : ℝ) (h0 : 0 ≤ t) (h1 : t ≤ 1) :
    a5 * t ^ 4 + a4 * t ^ 3 + a3 * t ^ 2 + a2 * t + a1 ≤ 2 := by
  unfold a1 a2 a3 a4 a5
  nlinarith [mul_nonneg (mul_nonneg (mul_nonneg h0 h0) h0)
      (by linarith : (0 : ℝ) ≤ 1.453152027 / 1.061405429 - t),
    sq_nonneg t, mul_nonneg h0 h0]

lemma poly_eq_mul (t : ℝ) :
    poly t = t * (a5 * t ^ 4 + a4 * t ^ 3 + a3 * t ^ 2 + a2 * t + a1) := by
  unfold poly; ring

lemma poly_nonneg {t : ℝ} (h0 : 0 ≤ t) : 0 ≤ poly t := by
  rw [poly_eq_mul]; exact mul_nonneg h0 (quartic_nonneg t)

lemma poly_le_two {t : ℝ} (h0 : 0 ≤ t) (h1 : t ≤ 1) : poly t ≤ 2 := by
  rw [poly_eq_mul]
  calc t * (a5 * t ^ 4 + a4 * t ^ 3 + a3 * t ^ 2 + a2 * t + a1)
      ≤ 1 * (a5 * t ^ 4 + a4 * t ^ 3 + a3 * t ^ 2 + a2 * t + a1) :=
        mul_le_mul_of_nonneg_right h1 (quartic_nonneg t)
    _ ≤ 2 := by rw [one_mul]; exact quartic_le_two t h0 h1

lemma p_pos : (0 : ℝ) < p := by unfold p; norm_num

/-- For a nonnegative folded argument, the Horner argument `1/(1+p*z)`
lies in `(0, 1]`. -/
lemma horner_arg_mem {z : ℝ} (hz : 0 ≤ z) :
    0 < 1 / (1 + p * z) ∧ 1 / (1 + p * z) ≤ 1 := by
  have hpz : 0 ≤ p * z := mul_nonneg p_pos.le hz
  have hd : (0 : ℝ) < 1 + p * z := by linarith
  constructor
  · positivity
  · rw [div_le_one hd]; linarith

/-- On nonnegative arguments the `y` computed by `cnd` lies in `[-1, 1]`. -/
lemma erfAS_bounds {z : ℝ} (hz : 0 ≤ z) : -1 ≤ erfAS z ∧ erfAS z ≤ 1 := by
  obtain ⟨ht0, ht1⟩ := horner_arg_mem hz
  have hP0 : 0 ≤ poly (1 / (1 + p * z)) := poly_nonneg ht0.le
  have hP2 : poly (1 / (1 + p * z)) ≤ 2 := poly_le_two ht0.le ht1
  have hE0 : 0 < Real.exp (-(z * z)) := Real.exp_pos _
  have hE1 : Real.exp (-(z * z)) ≤ 1 :=
    Real.exp_le_one_iff.mpr (by nlinarith [mul_nonneg hz hz])
  have hPE0 : 0 ≤ poly (1 / (1 + p * z)) * Real.exp (-(z * z)) :=
    mul_nonneg hP0 hE0.le
  have hPE2 : poly (1 / (1 + p * z)) * Real.exp (-(z * z)) ≤ 2 := by
    calc poly (1 / (1 + p * z)) * Real.exp (-(z * z))
        ≤ poly (1 / (1 + p * z)) * 1 := mul_le_mul_of_nonneg_left hE1 hP0
      _ ≤ 2 := by rw [mul_one]; exact hP2
  unfold erfAS
  constructor <;> linarith

lemma cnd_of_nonneg {x : ℝ} (h : 0 ≤ x) : cnd x = 0.5 * (1 + erfAS x) := by
  unfold cnd
  rw [if_neg (not_lt.mpr h), abs_of_nonneg h, one_mul]

lemma cnd_of_neg {x : ℝ} (h : x < 0) : cnd x = 0.5 * (1 - erfAS (-x)) := by
  unfold cnd
  rw [if_pos h, abs_of_neg h]; ring

/-- The value of `cnd` always lands in `[0, 1]`. -/
lemma cnd_mem_unit (x : ℝ) : 0 ≤ cnd x ∧ cnd x ≤ 1 := by
  rcases lt_or_le x 0 with hx | hx
  · rw [cnd_of_neg hx]
    obtain ⟨hl, hu⟩ := erfAS_bounds (by linarith : (0 : ℝ) ≤ -x)
    constructor <;> linarith
  · rw [cnd_of_nonneg hx]
    obtain ⟨hl, hu⟩ := erfAS_bounds hx
    constructor <;> linarith

/-- Exact symmetry of `cnd` away from `0`: the two branches use the same
folded value `y(|x|)` with opposite signs. -/
lemma cnd_add_neg {x : ℝ} (hx : x ≠ 0) : cnd x + cnd (-x) = 1 := by
  rcases hx.lt_or_lt with h | h
  · rw [cnd_of_neg h, cnd_of_nonneg (by linarith : (0 : ℝ) ≤ -x)]; ring
  · rw [cnd_of_nonneg h.le, cnd_of_neg (by linarith : -x < 0), neg_neg]; ring

/-- The exact value of `cnd 0`: the Abramowitz-Stegun coefficients sum to
`0.999999999`, so `cnd 0 = 0.5 * (1 + 10⁻⁹)`. -/
lemma cnd_zero : cnd 0 = 0.5000000005 := by
  rw [cnd_of_nonneg le_rfl]
  unfold erfAS poly a1 a2 a3 a4 a5 p
  norm_num

/-- The symmetry defect `cnd x + cnd (-x) - 1` is always in `[0, 10⁻⁹]`. -/
lemma cnd_defect (x : ℝ) :
    0 ≤ cnd x + cnd (-x) - 1 ∧ cnd x + cnd (-x) - 1 ≤ 1e-9 := by
  rcases eq_or_ne x 0 with rfl | hx
  · rw [neg_zero, cnd_zero]; norm_num
  · rw [cnd_add_neg hx]; norm_num

/-- Normal-branch shape of the batch result for a call. -/
lemma calculateGreeks_call (S K T r sigma : ℝ) (h : ¬ T ≤ 0.0001) :
    calculateGreeks true S K T r sigma =
      { price := S * cnd (d1 S K T r sigma)
          - K * Real.exp (-(r * T)) * cnd (d2 S K T r sigma)
        delta := cnd (d1 S K T r sigma)
        gamma := npdf (d1 S K T r sigma) / (S * sigma * Real.sqrt T)
        theta := (-(S * sigma * npdf (d1 S K T r sigma)) / (2 * Real.sqrt T)
          - r * K * Real.exp (-(r * T)) * cnd (d2 S K T r sigma)) / 365
        vega := 0.01 * S * Real.sqrt T * npdf (d1 S K T r sigma)
        rho := 0.01 * K * T * Real.exp (-(r * T)) * cnd (d2 S K T r sigma) } := by
  unfold calculateGreeks
  rw [if_neg h]
  rfl

/-- Normal-branch shape of the batch result for a put. -/
lemma calculateGreeks_put (S K T r sigma : ℝ) (h : ¬ T ≤ 0.0001) :
    calculateGreeks false S K T r sigma =
      { price := K * Real.exp (-(r * T)) * cnd (-(d2 S K T r sigma))
          - S * cnd (-(d1 S K T r sigma))
        delta := cnd (d1 S K T r sigma) - 1
        gamma := npdf (d1 S K T r sigma) / (S * sigma * Real.sqrt T)
        theta := (-(S * sigma * npdf (d1 S K T r sigma)) / (2 * Real.sqrt T)
          + r * K * Real.exp (-(r * T)) * cnd (-(d2 S K T r sigma))) / 365
        vega := 0.01 * S * Real.sqrt T * npdf (d1 S K T r sigma)
        rho := -0.01 * K * T * Real.exp (-(r * T)) * cnd (-(d2 S K T r sigma)) } := by
  unfold calculateGreeks
  rw [if_neg h]
  rfl

lemma npdf_pos (x : ℝ) : 0 < npdf x := by
  unfold npdf
  have h2 : (0 : ℝ) < 2 * Real.pi := by positivity
  positivity

/-! ### Claim theorems -/

/-- C2 counterexample: at `isCall = true, S = 1, K = 1, T = 1, r = 0,
sigma = 1` the individual `calculateTheta` does not equal the batch theta:
the individual function omits the division by 365. -/
theorem calculateTheta_ne_batch_theta :
    calculateTheta true 1 1 1 0 1 ≠ (calculateGreeks true 1 1 1 0 1).theta := by
  have hT : ¬ ((1 : ℝ) ≤ 0.0001) := by norm_num
  have hnd : 0 < npdf (d1 1 1 1 0 1) := npdf_pos _
  unfold calculateTheta calculateGreeks
  rw [if_neg hT, if_neg hT]
  simp only [if_true, Real.sqrt_one]
  intro h
  nlinarith [h, hnd]

/-- C2 amended: for every input the individual price, delta, gamma, vega
and rho functions return exactly the corresponding component of the batch
`calculateGreeks` result, while `calculateTheta` returns 365 times the
batch theta (the annual rather than the per-day value). -/
theorem indv_functions_vs_batch (isCall : Bool) (S K T r sigma : ℝ) :
    calculateOptionPrice isCall S K T r sigma
        = (calculateGreeks isCall S K T r sigma).price ∧
    calculateDelta isCall S K T r sigma
        = (calculateGreeks isCall S K T r sigma).delta ∧
    calculateGamma S K T r sigma
        = (calculateGreeks isCall S K T r sigma).gamma ∧
    calculateVega S K T r sigma
        = (calculateGreeks isCall S K T r sigma).vega ∧
    calculateRho isCall S K T r sigma
        = (calculateGreeks isCall S K T r sigma).rho ∧
    calculateTheta isCall S K T r sigma
        = 365 * (calculateGreeks isCall S K T r sigma).theta := by
  unfold calculateOptionPrice calculateDelta calculateGamma calculateTheta
    calculateVega calculateRho calculateGreeks
  by_cases hT : T ≤ 0.0001
  · cases isCall <;> simp [hT]
  · cases isCall <;> simp [hT] <;> ring

/-- C4: at or below the expiry threshold `T ≤ 0.0001` the batch result is
the intrinsic price (hence nonnegative) and zero gamma, theta, vega and
rho; the returned record is built from `S` and `K` alone, never from
`d1` or `d2`. -/
theorem boundary_price_and_greeks (isCall : Bool) (S K T r sigma : ℝ)
    (hT : T ≤ 0.0001) :
    (calculateGreeks isCall S K T r sigma).price
        = (if isCall then max 0 (S - K) else max 0 (K - S)) ∧
    0 ≤ (calculateGreeks isCall S K T r sigma).price ∧
    (calculateGreeks isCall S K T r sigma).gamma = 0 ∧
    (calculateGreeks isCall S K T r sigma).theta = 0 ∧
    (calculateGreeks isCall S K T r sigma).vega = 0 ∧
    (calculateGreeks isCall S K T r sigma).rho = 0 := by
  unfold calculateGreeks
  rw [if_pos hT]
  cases isCall <;> simp

/-- C4 witness at `isCall = true, S = 2, K = 1, T = 0, r = 0, sigma = 0`. -/
theorem boundary_price_and_greeks_witness :
    (0 : ℝ) ≤ 0.0001 ∧
    ((calculateGreeks true 2 1 0 0 0).price
        = (if (true : Bool) then max 0 ((2 : ℝ) - 1) else max 0 (1 - 2)) ∧
    0 ≤ (calculateGreeks true 2 1 0 0 0).price ∧
    (calculateGreeks true 2 1 0 0 0).gamma = 0 ∧
    (calculateGreeks true 2 1 0 0 0).theta = 0 ∧
    (calculateGreeks true 2 1 0 0 0).vega = 0 ∧
    (calculateGreeks true 2 1 0 0 0).rho = 0) :=
  ⟨by norm_num, boundary_price_and_greeks true 2 1 0 0 0 (by norm_num)⟩

/-- C5: at or below the expiry threshold, the call delta is the indicator
of `S > K`, the put delta is minus the indicator of `S < K`, and both are
exactly `0` at `S = K`. -/
theorem boundary_delta (S K T r sigma : ℝ) (hT : T ≤ 0.0001) :
    (calculateGreeks true S K T r sigma).delta = (if S > K then 1 else 0) ∧
    (calculateGreeks false S K T r sigma).delta = (if S < K then -1 else 0) ∧
    (S = K → (calculateGreeks true S K T r sigma).delta = 0 ∧
      (calculateGreeks false S K T r sigma).delta = 0) := by
  unfold calculateGreeks
  rw [if_pos hT, if_pos hT]
  refine ⟨by simp, by simp, ?_⟩
  rintro rfl
  simp

/-- C5 witness at `S = K = 1, T = 0, r = 0, sigma = 0`. -/
theorem boundary_delta_witness :
    (0 : ℝ) ≤ 0.0001 ∧
    ((calculateGreeks true 1 1 0 0 0).delta
        = (if (1 : ℝ) > 1 then 1 else 0) ∧
    (calculateGreeks false 1 1 0 0 0).delta
        = (if (1 : ℝ) < 1 then -1 else 0) ∧
    ((1 : ℝ) = 1 → (calculateGreeks true 1 1 0 0 0).delta = 0 ∧
      (calculateGreeks false 1 1 0 0 0).delta = 0)) :=
  ⟨by norm_num, boundary_delta 1 1 0 0 0 (by norm_num)⟩

/-- C7: gamma and vega do not depend on the option type, are nonnegative
in the normal branch for `S > 0, sigma > 0`, and are exactly `0` at or
below the expiry threshold. -/
theorem gamma_vega_symmetric_nonneg (isCall isCall' : Bool) (S K T r sigma : ℝ) :
    (calculateGreeks isCall S K T r sigma).gamma
        = (calculateGreeks isCall' S K T r sigma).gamma ∧
    (calculateGreeks isCall S K T r sigma).vega
        = (calculateGreeks isCall' S K T r sigma).vega ∧
    (0 < S → 0 < sigma → 0.0001 < T →
      0 ≤ (calculateGreeks isCall S K T r sigma).gamma ∧
      0 ≤ (calculateGreeks isCall S K T r sigma).vega) ∧
    (T ≤ 0.0001 →
      (calculateGreeks isCall S K T r sigma).gamma = 0 ∧
      (calculateGreeks isCall S K T r sigma).vega = 0) := by
  refine ⟨?_, ?_, ?_, ?_⟩
  · unfold calculateGreeks
    by_cases hT : T ≤ 0.0001 <;> cases isCall <;> cases isCall' <;> simp [hT]
  · unfold calculateGreeks
    by_cases hT : T ≤ 0.0001 <;> cases isCall <;> cases isCall' <;> simp [hT]
  · intro hS hsig hT
    have hT' : ¬ (T ≤ 0.0001) := not_le.mpr hT
    have hden : 0 ≤ S * sigma * Real.sqrt T :=
      mul_nonneg (mul_nonneg hS.le hsig.le) (Real.sqrt_nonneg T)
    have hnd : 0 ≤ npdf (d1 S K T r sigma) := (npdf_pos _).le
    unfold calculateGreeks
    cases isCall <;>
      simp only [hT', if_false, if_true, Bool.false_eq_true, ite_false, ite_true] <;>
      exact ⟨div_nonneg hnd hden, by positivity⟩
  · intro hT
    unfold calculateGreeks
    cases isCall <;> simp [hT]

/-- C7 witness at `isCall = true, isCall' = false, S = 1, K = 1, T = 1,
r = 0, sigma = 1`. -/
theorem gamma_vega_symmetric_nonneg_witness :
    ((calculateGreeks true 1 1 1 0 1).gamma
        = (calculateGreeks false 1 1 1 0 1).gamma ∧
    (calculateGreeks true 1 1 1 0 1).vega
        = (calculateGreeks false 1 1 1 0 1).vega ∧
    ((0 : ℝ) < 1 → (0 : ℝ) < 1 → (0.0001 : ℝ) < 1 →
      0 ≤ (calculateGreeks true 1 1 1 0 1).gamma ∧
      0 ≤ (calculateGreeks true 1 1 1 0 1).vega) ∧
    ((1 : ℝ) ≤ 0.0001 →
      (calculateGreeks true 1 1 1 0 1).gamma = 0 ∧
      (calculateGreeks true 1 1 1 0 1).vega = 0)) ∧
    0 ≤ (calculateGreeks true 1 1 1 0 1).gamma :=
  ⟨gamma_vega_symmetric_nonneg true false 1 1 1 0 1,
   ((gamma_vega_symmetric_nonneg true false 1 1 1 0 1).2.2.1
      (by norm_num) (by norm_num) (by norm_num)).1⟩

/-- C10: at or below the expiry threshold, the batch result and every
individual function ignore `r` and `sigma`: calls differing only in those
two inputs return identical results. -/
theorem boundary_noninterference (isCall : Bool) (S K T r sigma r' sigma' : ℝ)
    (hT : T ≤ 0.0001) :
    calculateGreeks isCall S K T r sigma = calculateGreeks isCall S K T r' sigma' ∧
    calculateOptionPrice isCall S K T r sigma
        = calculateOptionPrice isCall S K T r' sigma' ∧
    calculateDelta isCall S K T r sigma = calculateDelta isCall S K T r' sigma' ∧
    calculateGamma S K T r sigma = calculateGamma S K T r' sigma' ∧
    calculateTheta isCall S K T r sigma = calculateTheta isCall S K T r' sigma' ∧
    calculateVega S K T r sigma = calculateVega S K T r' sigma' ∧
    calculateRho isCall S K T r sigma = calculateRho isCall S K T r' sigma' := by
  unfold calculateGreeks calculateOptionPrice calculateDelta calculateGamma
    calculateTheta calculateVega calculateRho
  simp [hT]

/-- C10 witness at `isCall = true, S = 2, K = 1, T = 0, r = 0.05,
sigma = 0.2` versus `r' = -0.3, sigma' = 7`. -/
theorem boundary_noninterference_witness :
    (0 : ℝ) ≤ 0.0001 ∧
    (calculateGreeks true 2 1 0 0.05 0.2 = calculateGreeks true 2 1 0 (-0.3) 7 ∧
    calculateOptionPrice true 2 1 0 0.05 0.2 = calculateOptionPrice true 2 1 0 (-0.3) 7 ∧
    calculateDelta true 2 1 0 0.05 0.2 = calculateDelta true 2 1 0 (-0.3) 7 ∧
    calculateGamma 2 1 0 0.05 0.2 = calculateGamma 2 1 0 (-0.3) 7 ∧
    calculateTheta true 2 1 0 0.05 0.2 = calculateTheta true 2 1 0 (-0.3) 7 ∧
    calculateVega 2 1 0 0.05 0.2 = calculateVega 2 1 0 (-0.3) 7 ∧
    calculateRho true 2 1 0 0.05 0.2 = calculateRho true 2 1 0 (-0.3) 7) :=
  ⟨by norm_num, boundary_noninterference true 2 1 0 0.05 0.2 (-0.3) 7 (by norm_num)⟩

/-- C8: for valid inputs the call delta lies in `[0, 1]` and the put delta
in `[-1, 0]`, in both the boundary branch and the normal branch, for the
batch function and the individual `calculateDelta` alike. -/
theorem delta_bounds (S K T r sigma : ℝ)
    (hS : 0 < S) (hK : 0 < K) (hsig : 0 < sigma) (hT : 0 ≤ T) :
    (0 ≤ (calculateGreeks true S K T r sigma).delta ∧
      (calculateGreeks true S K T r sigma).delta ≤ 1) ∧
    (-1 ≤ (calculateGreeks false S K T r sigma).delta ∧
      (calculateGreeks false S K T r sigma).delta ≤ 0) ∧
    (0 ≤ calculateDelta true S K T r sigma ∧
      calculateDelta true S K T r sigma ≤ 1) ∧
    (-1 ≤ calculateDelta false S K T r sigma ∧
      calculateDelta false S K T r sigma ≤ 0) := by
  obtain ⟨hc0, hc1⟩ := cnd_mem_unit (d1 S K T r sigma)
  by_cases hb : T ≤ 0.0001
  · unfold calculateGreeks calculateDelta
    rw [if_pos hb, if_pos hb, if_pos hb, if_pos hb]
    refine ⟨?_, ?_, ?_, ?_⟩ <;> simp <;> split_ifs <;> norm_num
  · rw [calculateGreeks_call S K T r sigma hb, calculateGreeks_put S K T r sigma hb]
    unfold calculateDelta
    rw [if_neg hb, if_neg hb]
    refine ⟨⟨hc0, hc1⟩, ⟨by simp; linarith, by simp; linarith⟩,
      ⟨by simpa using hc0, by simpa using hc1⟩, ⟨by simp; linarith, by simp; linarith⟩⟩

/-- C8 witness at `S = 1, K = 1, T = 1, r = 0, sigma = 1`. -/
theorem delta_bounds_witness :
    ((0 : ℝ) < 1 ∧ (0 : ℝ) < 1 ∧ (0 : ℝ) < 1 ∧ (0 : ℝ) ≤ 1) ∧
    ((0 ≤ (calculateGreeks true 1 1 1 0 1).delta ∧
      (calculateGreeks true 1 1 1 0 1).delta ≤ 1) ∧
    (-1 ≤ (calculateGreeks false 1 1 1 0 1).delta ∧
      (calculateGreeks false 1 1 1 0 1).delta ≤ 0) ∧
    (0 ≤ calculateDelta true 1 1 1 0 1 ∧
      calculateDelta true 1 1 1 0 1 ≤ 1) ∧
    (-1 ≤ calculateDelta false 1 1 1 0 1 ∧
      calculateDelta false 1 1 1 0 1 ≤ 0)) :=
  ⟨⟨by norm_num, by norm_num, by norm_num, by norm_num⟩,
   delta_bounds 1 1 1 0 1 (by norm_num) (by norm_num) (by norm_num) (by norm_num)⟩

/-- C9: the value `cnd 0` is within `10⁻⁷` of `0.5` (it equals `0.5 + 5·10⁻¹⁰`
exactly), and `cnd x + cnd (-x)` is within `10⁻⁶` of `1` for every
`x ∈ [-5, 5]` (the defect is `0` away from the origin and `10⁻⁹` at it). -/
theorem cnd_accuracy (x : ℝ) (hl : -5 ≤ x) (hu : x ≤ 5) :
    |cnd 0 - 0.5| ≤ 1e-7 ∧ |cnd x + cnd (-x) - 1| ≤ 1e-6 := by
  constructor
  · rw [cnd_zero,
      abs_of_nonneg (by norm_num : (0 : ℝ) ≤ 0.5000000005 - 0.5)]
    norm_num
  · obtain ⟨h0, h1⟩ := cnd_defect x
    rw [abs_le]
    constructor <;> nlinarith

/-- C9 witness at `x = 1`. -/
theorem cnd_accuracy_witness :
    (-5 : ℝ) ≤ 1 ∧ (1 : ℝ) ≤ 5 ∧
    (|cnd 0 - 0.5| ≤ 1e-7 ∧ |cnd 1 + cnd (-1) - 1| ≤ 1e-6) :=
  ⟨by norm_num, by norm_num, cnd_accuracy 1 (by norm_num) (by norm_num)⟩

/-- C6 counterexample: at `S = K = 10⁹, T = 1, r = -0.02, sigma = 0.2`
the drift term `r + sigma²/2` vanishes, so `d1 = 0` exactly; there the
symmetry defect of `cnd` at the origin is scaled by `S` and the parity
error equals `10⁹ · 10⁻⁹ = 1`, far above the claimed `10⁻⁴`. -/
theorem put_call_parity_1e4_fails :
    ¬ (|(calculateGreeks true 1000000000 1000000000 1 (-0.02) 0.2).price
        - (calculateGreeks false 1000000000 1000000000 1 (-0.02) 0.2).price
        - (1000000000 - 1000000000 * Real.exp (-(-0.02 * 1)))| ≤ 1e-4) := by
  have hT' : ¬ ((1 : ℝ) ≤ 0.0001) := by norm_num
  have hd1 : d1 1000000000 1000000000 1 (-0.02) 0.2 = 0 := by
    unfold d1
    rw [div_self (by norm_num : (1000000000 : ℝ) ≠ 0), Real.log_one,
      Real.sqrt_one]
    norm_num
  have hd2 : d2 1000000000 1000000000 1 (-0.02) 0.2 = -0.2 := by
    unfold d2
    rw [hd1, Real.sqrt_one]
    norm_num
  rw [calculateGreeks_call _ _ _ _ _ hT', calculateGreeks_put _ _ _ _ _ hT']
  dsimp only
  rw [hd1, hd2, neg_neg, neg_zero, cnd_zero]
  have hsym : cnd (-0.2) = 1 - cnd 0.2 := by
    have h := cnd_add_neg (x := (0.2 : ℝ)) (by norm_num)
    linarith
  rw [hsym]
  intro habs
  rw [abs_le] at habs
  linarith [habs.2]

/-- C6 amended: in the normal branch the parity error is bounded by
`10⁻⁹ · (S + K·exp(-rT))` — the per-term symmetry defect of `cnd` scaled
by the term sizes.  This is below `10⁻⁴` for moderate `S`, `K`, but not
for every valid input. -/
theorem put_call_parity_scaled (S K T r sigma : ℝ)
    (hS : 0 < S) (hK : 0 < K) (hsig : 0 < sigma) (hT : 0.0001 < T) :
    |(calculateGreeks true S K T r sigma).price
        - (calculateGreeks false S K T r sigma).price
        - (S - K * Real.exp (-(r * T)))|
      ≤ 1e-9 * (S + K * Real.exp (-(r * T))) := by
  have hT' : ¬ (T ≤ 0.0001) := not_le.mpr hT
  rw [calculateGreeks_call S K T r sigma hT', calculateGreeks_put S K T r sigma hT']
  dsimp only
  obtain ⟨h1l, h1u⟩ := cnd_defect (d1 S K T r sigma)
  obtain ⟨h2l, h2u⟩ := cnd_defect (d2 S K T r sigma)
  have hKE : 0 < K * Real.exp (-(r * T)) := mul_pos hK (Real.exp_pos _)
  rw [abs_le]
  constructor <;>
    nlinarith [mul_le_mul_of_nonneg_left h1u hS.le, mul_nonneg hS.le h1l,
      mul_le_mul_of_nonneg_left h2u hKE.le, mul_nonneg hKE.le h2l]

/-- C6 witness at `S = 1, K = 1, T = 1, r = 0, sigma = 1`. -/
theorem put_call_parity_scaled_witness :
    ((0 : ℝ) < 1 ∧ (0 : ℝ) < 1 ∧ (0 : ℝ) < 1 ∧ (0.0001 : ℝ) < 1) ∧
    |(calculateGreeks true 1 1 1 0 1).price
        - (calculateGreeks false 1 1 1 0 1).price
        - (1 - 1 * Real.exp (-(0 * 1)))|
      ≤ 1e-9 * (1 + 1 * Real.exp (-(0 * 1))) :=
  ⟨⟨by norm_num, by norm_num, by norm_num, by norm_num⟩,
   put_call_parity_scaled 1 1 1 0 1 (by norm_num) (by norm_num)
     (by norm_num) (by norm_num)⟩

/-- C3 refutation: at the spec's scenario `isCall = true, S = 100,
K = 100, T = 1, r = 0.05, sigma = 0.2` the engine's delta is
`cnd 0.35 ≈ 0.6897`, not within `10⁻³` relative tolerance of the
Black-Scholes reference `0.6368` (the missing `/√2` in `cnd` inflates
the CDF values). -/
theorem scenario_delta_outside_tolerance :
    ¬ (|(calculateGreeks true 100 100 1 0.05 0.2).delta - 0.6368|
        ≤ 1e-3 * 0.6368) := by
  have hT' : ¬ ((1 : ℝ) ≤ 0.0001) := by norm_num
  have hd1 : d1 100 100 1 0.05 0.2 = 0.35 := by
    unfold d1
    rw [div_self (by norm_num : (100 : ℝ) ≠ 0), Real.log_one, Real.sqrt_one]
    norm_num
  rw [calculateGreeks_call _ _ _ _ _ hT']
  dsimp only
  rw [hd1]
  have hc : 0.64 < cnd 0.35 := by
    rw [cnd_of_nonneg (by norm_num : (0 : ℝ) ≤ 0.35)]
    unfold erfAS
    have hP0 : 0 ≤ poly (1 / (1 + p * 0.35)) :=
      poly_nonneg (by unfold p; positivity)
    have hP : poly (1 / (1 + p * 0.35)) < 0.705 := by
      unfold poly a1 a2 a3 a4 a5 p
      norm_num
    have hE1 : Real.exp (-(0.35 * 0.35 : ℝ)) < 1 :=
      Real.exp_lt_one_iff.mpr (by norm_num)
    nlinarith [mul_le_of_le_one_right hP0 hE1.le]
  intro habs
  rw [abs_le] at habs
  linarith [habs.2]

/-- The polynomial `poly` is at least `0.52` on the interval containing `1/(1 + p/√2)`,
by monomial interval bounds. -/
lemma poly_lower_on_spec_interval (t : ℝ) (htl : (0.8119 : ℝ) < t)
    (htu : t < (0.8120 : ℝ)) : (0.52 : ℝ) ≤ poly t := by
  have h0 : (0 : ℝ) < t := by linarith
  have h2l : (0.65918 : ℝ) ≤ t * t := by nlinarith
  have h2u : t * t ≤ (0.65935 : ℝ) := by nlinarith
  have h3l : (0.53518 : ℝ) ≤ t * t * t := by nlinarith
  have h4u : t * t * t * t ≤ (0.43475 : ℝ) := by nlinarith
  have h5l : (0.35277 : ℝ) ≤ t * t * t * t * t := by nlinarith
  have hpoly : poly t
      = a5 * (t * t * t * t * t) + a4 * (t * t * t * t)
        + a3 * (t * t * t) + a2 * (t * t) + a1 * t := by
    unfold poly
    ring
  rw [hpoly]
  unfold a1 a2 a3 a4 a5
  linarith

/-- C1 refutation: the code's `cnd` does not follow the spec's algorithm.
At `x = 1` the code returns `cnd 1 > 0.9` (it feeds `|x|` itself to the
error-function fit), while the spec's algorithm with `z = |x|/√2` returns
`cndSpecAlg 1 < 0.87` (`≈ 0.8413`, the true normal CDF at 1 up to the
`1.5·10⁻⁷` fit error); the two differ by far more than `1.5·10⁻⁷`. -/
theorem cnd_diverges_from_spec_algorithm :
    0.9 < cnd 1 ∧ cndSpecAlg 1 < 0.87 := by
  constructor
  · rw [cnd_of_nonneg (by norm_num : (0 : ℝ) ≤ 1)]
    unfold erfAS
    have hP0 : 0 ≤ poly (1 / (1 + p * 1)) :=
      poly_nonneg (by unfold p; positivity)
    have hP : poly (1 / (1 + p * 1)) < 0.43 := by
      unfold poly a1 a2 a3 a4 a5 p
      norm_num
    have hE0 : 0 < Real.exp (-(1 * 1 : ℝ)) := Real.exp_pos _
    have hE : Real.exp (-(1 * 1 : ℝ)) < 0.37 := by
      rw [show (-(1 * 1 : ℝ)) = -1 by norm_num, Real.exp_neg]
      have hpos : (0 : ℝ) < Real.exp 1 := Real.exp_pos 1
      have hinv : Real.exp 1 * (Real.exp 1)⁻¹ = 1 := mul_inv_cancel₀ hpos.ne'
      nlinarith [Real.exp_one_gt_d9, inv_pos.mpr hpos]
    nlinarith [mul_le_mul hP.le hE.le hE0.le (by norm_num : (0 : ℝ) ≤ 0.43)]
  · unfold cndSpecAlg
    rw [if_neg (by norm_num : ¬((1 : ℝ) < 0)), abs_one, one_mul]
    have hs0 : (0 : ℝ) < Real.sqrt 2 := Real.sqrt_pos.mpr (by norm_num)
    have hs2 : Real.sqrt 2 * Real.sqrt 2 = 2 :=
      Real.mul_self_sqrt (by norm_num)
    have hsl : (1.4142135 : ℝ) < Real.sqrt 2 := by nlinarith
    have hsu : Real.sqrt 2 < 1.4142136 := by nlinarith
    have hz1 : (1 / Real.sqrt 2) * Real.sqrt 2 = 1 :=
      one_div_mul_cancel hs0.ne'
    have hz0 : 0 < 1 / Real.sqrt 2 := by positivity
    have hzl : (0.7071067 : ℝ) < 1 / Real.sqrt 2 := by nlinarith
    have hzu : 1 / Real.sqrt 2 < (0.7071069 : ℝ) := by nlinarith
    have hzz : (1 / Real.sqrt 2) * (1 / Real.sqrt 2) = 1 / 2 := by
      rw [div_mul_div_comm, one_mul, hs2]
    unfold erfAS
    rw [hzz]
    have hpz : p * (1 / Real.sqrt 2) < 0.2316420 := by
      unfold p
      nlinarith
    have hpz' : (0.2316418 : ℝ) < p * (1 / Real.sqrt 2) := by
      unfold p
      nlinarith
    have hden : (0 : ℝ) < 1 + p * (1 / Real.sqrt 2) := by nlinarith
    have ht1 : (1 + p * (1 / Real.sqrt 2)) * (1 / (1 + p * (1 / Real.sqrt 2))) = 1 := by
      rw [mul_one_div, div_self hden.ne']
    have ht0 : 0 < 1 / (1 + p * (1 / Real.sqrt 2)) := by positivity
    have htl : (0.8119 : ℝ) < 1 / (1 + p * (1 / Real.sqrt 2)) := by nlinarith
    have htu : 1 / (1 + p * (1 / Real.sqrt 2)) < (0.8120 : ℝ) := by nlinarith
    have hP52 : (0.52 : ℝ) ≤ poly (1 / (1 + p * (1 / Real.sqrt 2))) :=
      poly_lower_on_spec_interval _ htl htu
    have hhalf : Real.exp (1 / 2) * Real.exp (1 / 2) = Real.exp 1 := by
      rw [← Real.exp_add]
      norm_num
    have hu2 : Real.exp (1 / 2 : ℝ) < 5 / 3 := by
      nlinarith [Real.exp_one_lt_d9, Real.exp_pos (1 / 2 : ℝ)]
    have hEl : (3 / 5 : ℝ) ≤ Real.exp (-(1 / 2) : ℝ) := by
      rw [Real.exp_neg]
      have hpos : (0 : ℝ) < Real.exp (1 / 2) := Real.exp_pos _
      have hinv : Real.exp (1 / 2) * (Real.exp (1 / 2))⁻¹ = 1 :=
        mul_inv_cancel₀ hpos.ne'
      nlinarith [inv_pos.mpr hpos]
    have hPE : (0.312 : ℝ)
        ≤ poly (1 / (1 + p * (1 / Real.sqrt 2))) * Real.exp (-(1 / 2) : ℝ) := by
      have := mul_le_mul hP52 hEl (by norm_num : (0 : ℝ) ≤ 3 / 5)
        (by linarith : (0 : ℝ) ≤ poly (1 / (1 + p * (1 / Real.sqrt 2))))
      linarith
    linarith

end OptionsCalc
